import Mathlib

/-!
Verification of the mold linker core (src/mold.h) via a shallow embedding.

The embedding translates the in-header definitions of src/mold.h into Lean:
machine integers become Nat (with explicit % 2^w only where overflow matters),
pointers become Option of the pointed-to record (or an index into a store when
pointer identity matters), and byte buffers become functions Nat → Nat.
Parts of the repository that live in missing .cc files (symbol binding,
merged-section offset assignment, the driver) are modelled from the spec and
marked as such in their doc comments.
-/

namespace Mold

/-! ## ELF section header and the output-chunk data model (src/mold.h) -/

/-- Embedding of ELF64LE::Shdr as used by OutputChunk; only the fields the
claims touch are carried. Fields default to zero as in `ELF64LE::Shdr shdr = {}`. -/
structure ElfShdr where
  sh_addr : Nat := 0
  sh_size : Nat := 0
  sh_offset : Nat := 0
  sh_addralign : Nat := 0
  sh_flags : Nat := 0
  sh_type : Nat := 0
  sh_entsize : Nat := 0
deriving DecidableEq

/-- Embedding of OutputSection: the part Symbol::get_addr reads (its shdr). -/
structure OutputSection where
  shdr : ElfShdr := {}
deriving DecidableEq

/-- Embedding of MergedSection: the part StringPiece::get_addr reads (its shdr). -/
structure MergedSection where
  shdr : ElfShdr := {}
deriving DecidableEq

/-- Embedding of InputSection, restricted to the fields dereferenced by
Symbol::get_addr and StringPiece::get_addr. In the source output_section and
merged_section are pointers that those functions dereference unconditionally,
so they are embedded as plain fields. -/
structure InputSection where
  output_section : OutputSection := {}
  offset : Nat := 0
  merged_section : MergedSection := {}
  merged_offset : Nat := 0
deriving DecidableEq

/-! ## StringPiece and Symbol (src/mold.h lines 155-218, 508-522) -/

/-- Embedding of StringPiece: the atomic isec pointer (dereferenced by
get_addr, hence embedded as a plain field) and the assigned output offset. -/
structure StringPiece where
  isec : InputSection := {}
  output_offset : Nat := 0
deriving DecidableEq

/-- StringPiece::get_addr (src/mold.h lines 519-522):
isec->merged_section->shdr.sh_addr + isec->merged_offset + output_offset. -/
def StringPiece.get_addr (p : StringPiece) : Nat :=
  p.isec.merged_section.shdr.sh_addr + p.isec.merged_offset + p.output_offset

/-- Embedding of StringPieceRef (src/mold.h lines 170-174): piece pointer
(nullable), input offset and addend, all default-initialized. -/
structure StringPieceRef where
  piece : Option StringPiece := none
  input_offset : Nat := 0
  addend : Nat := 0
deriving DecidableEq

/-- ELF STT_NOTYPE, the default Symbol type. -/
def STT_NOTYPE : Nat := 0

/-- Embedding of the Symbol record (src/mold.h lines 176-218). The owning
ObjectFile pointer is modelled by an optional file identifier; the spin mutex
has no sequential content; the atomic flags bitset becomes a Nat. Field
defaults mirror the in-class member initializers. -/
structure Symbol where
  name : String
  file : Option Nat := none
  input_section : Option InputSection := none
  piece_ref : StringPieceRef := {}
  value : Nat := 0
  got_offset : Nat := 0
  gotplt_offset : Nat := 0
  gottp_offset : Nat := 0
  plt_offset : Nat := 0
  relplt_offset : Nat := 0
  shndx : Nat := 0
  is_placeholder : Bool := false
  is_dso : Bool := false
  is_weak : Bool := false
  is_undef_weak : Bool := false
  traced : Bool := false
  flags : Nat := 0
  visibility : Nat := 0
  type : Nat := STT_NOTYPE
deriving DecidableEq

/-- The Symbol(name, file) constructor (src/mold.h lines 178-180): sets name
and file, clears the bit-field booleans, leaves every other field at its
member-initializer default. -/
def Symbol.ctor (name : String) (file : Option Nat := none) : Symbol :=
  { name := name, file := file }

/-- The Symbol copy constructor (src/mold.h line 182): delegates to
Symbol(other.name, other.file), so every other field is re-defaulted. -/
def Symbol.copy (other : Symbol) : Symbol :=
  Symbol.ctor other.name other.file

/-- Symbol::get_addr (src/mold.h lines 508-517): route through the merged
piece if present, else through the input section, else return the raw value. -/
def Symbol.get_addr (s : Symbol) : Nat :=
  match s.piece_ref.piece with
  | some piece => piece.get_addr + s.piece_ref.addend
  | none =>
    match s.input_section with
    | some isec => isec.output_section.shdr.sh_addr + isec.offset + s.value
    | none => s.value

/-! ## error() and exit codes (src/mold.h lines 68-74) -/

/-- Observable effect of a terminated linker process: the diagnostic lines it
printed to stderr and its exit code. error() never returns, so its embedding
yields this terminal effect rather than a value. -/
structure ErrorEffect where
  out_lines : List String
  exit_code : Nat
deriving DecidableEq

/-- error(msg) (src/mold.h lines 68-74): under a global mutex, print the
message followed by a newline (one line) and exit(1). The mutex only
serializes the write; the sequential observable is one line and exit code 1. -/
def error (msg : String) : ErrorEffect :=
  { out_lines := [msg], exit_code := 1 }

/-- Modelled from the spec: the driver (main.cc, not under src/) returns 0 on
success; every reported error goes through error(), which exits the process.
The overall exit status as a function of an optional reported error. -/
def linker_exit_code : Option String → Nat
  | none => 0
  | some msg => (error msg).exit_code

/-! ## PltSection::write_entry (src/mold.h lines 391-395) -/

/-- PltSection::write_entry(buf, value): buf[0]=0xff, buf[1]=0x25, then the
32-bit value stored little-endian at buf+2 (x86-64 byte order). The buffer is
a total byte map and pos is the address the source pointer already carries. -/
def PltSection.write_entry (buf : Nat → Nat) (pos value : Nat) : Nat → Nat :=
  fun i =>
    if i = pos then 0xff
    else if i = pos + 1 then 0x25
    else if i = pos + 2 then value % 256
    else if i = pos + 3 then value / 2 ^ 8 % 256
    else if i = pos + 4 then value / 2 ^ 16 % 256
    else if i = pos + 5 then value / 2 ^ 24 % 256
    else buf i

/-! ## InterpSection (src/mold.h lines 354-369) -/

/-- The hard-coded interpreter path constant of InterpSection. -/
def interp_path : String := "/lib64/ld-linux-x86-64.so.2"

/-- The bytes of the path array including its trailing NUL: sizeof(path)
counts the implicit terminator of the string literal. -/
def interp_path_bytes : List Nat := (interp_path.toList.map Char.toNat) ++ [0]

/-- InterpSection's constructor sets sh_size = sizeof(path). -/
def InterpSection.sh_size : Nat := interp_path_bytes.length

/-- InterpSection::copy_to: memcpy(buf + shdr.sh_offset, path, sizeof(path)). -/
def InterpSection.copy_to (sh_offset : Nat) (buf : Nat → Nat) : Nat → Nat :=
  fun i =>
    if sh_offset ≤ i ∧ i < sh_offset + interp_path_bytes.length
    then interp_path_bytes.getD (i - sh_offset) 0
    else buf i

/-- Modelled from the spec: the chunk list built by the driver (main.cc, not
under src/) includes out::interp only when a dynamic segment exists; the
default static pipeline has none, so the chunk is omitted there. -/
def interp_emitted (has_dynamic_segment : Bool) : Bool := has_dynamic_segment

/-! ## ConcurrentMap and Symbol::intern (src/mold.h lines 134-149, 184-187) -/

/-- Embedding of ConcurrentMap over tbb::concurrent_hash_map. The map state is
the sequence of installed (key, value) entries in installation order; a stable
pointer is the index of an entry. Entries are never moved or erased, so an
index handed out once stays valid. -/
abbrev ConcurrentMap (V : Type) : Type := List (String × V)

/-- Index of the entry holding a key, if present (the hash-table lookup). -/
def ConcurrentMap.findIdx {V : Type} : ConcurrentMap V → String → Option Nat
  | [], _ => none
  | p :: rest, key =>
    if p.1 = key then some 0
    else (ConcurrentMap.findIdx rest key).map (fun i => i + 1)

/-- ConcurrentMap::insert (src/mold.h lines 139-143), the tbb insert-or-get:
if the key is already present the accessor lands on the existing pair and the
map is unchanged; otherwise the (key, val) pair is installed. Returns the new
map state and the pointer (entry index) for the key. -/
def ConcurrentMap.insert {V : Type} (m : ConcurrentMap V) (key : String) (val : V) :
    ConcurrentMap V × Nat :=
  match ConcurrentMap.findIdx m key with
  | some i => (m, i)
  | none => (m ++ [(key, val)], m.length)

/-- Symbol::intern (src/mold.h lines 184-187): insert-or-get of Symbol(name)
into the global name map. -/
def Symbol.intern (m : ConcurrentMap Symbol) (name : String) :
    ConcurrentMap Symbol × Nat :=
  ConcurrentMap.insert m name (Symbol.ctor name)

/-! ## Symbol binding (ObjectFile::maybe_override_symbol, object_file.cc) -/

/-- Modelled from the spec: the strength of a contender in the binding rule of
ObjectFile::maybe_override_symbol (declared at src/mold.h line 593; its body
is in object_file.cc, which is not under src/). A freshly interned symbol is a
placeholder; an undefined reference never binds. -/
inductive BindKind where
  | placeholder
  | undef
  | weak
  | common
  | strong
deriving DecidableEq

/-- Rank used by the strongest-wins rule of the binding table:
strong > common > weak > undefined / placeholder. -/
def BindKind.rank : BindKind → Nat
  | .placeholder => 0
  | .undef => 0
  | .weak => 1
  | .common => 2
  | .strong => 3

/-- Modelled from the spec: a contender for one symbol name — its binding
strength and the priority of the file providing it (command-line position). -/
structure Binding where
  kind : BindKind
  file : Nat
deriving DecidableEq

/-- Modelled from the spec: the binding rule of
ObjectFile::maybe_override_symbol. The incoming contender replaces the
installed one only when strictly stronger; on a tie — in particular strong
versus strong — the installed one is kept, per the spec table row "defined,
non-weak vs defined, non-weak: keep installed (first-writer wins by
priority)". -/
def maybe_override_symbol (installed incoming : Binding) : Binding :=
  if installed.kind.rank < incoming.kind.rank then incoming else installed

/-- Modelled from the spec: pass B applies the binding rule over the files in
command-line order (spec section 5: the observable order over files within a
phase is the command-line order, i.e. ascending priority), starting from the
freshly interned placeholder. -/
def resolve_symbol (contenders : List Binding) : Binding :=
  contenders.foldl maybe_override_symbol { kind := BindKind.placeholder, file := 0 }

/-! ## Merged-section offset assignment (object_file.cc / output_chunks.cc) -/

/-- align_to (src/mold.h lines 252-255): round val up to a multiple of align.
The source masks off the low bits of val + align - 1, which for the asserted
power-of-two align equals subtracting the remainder. -/
def align_to (val align : Nat) : Nat :=
  (val + align - 1) - (val + align - 1) % align

/-- Modelled from the spec: merged-section offset assignment
(ObjectFile::assign_mergeable_string_offsets and MergedSection, whose bodies
are in the missing object_file.cc / output_chunks.cc). Walk the deduplicated
pieces in a deterministic order; give each piece the cursor rounded up to the
section alignment and advance the cursor past the piece; the final cursor is
the section's sh_size. Pieces are represented by their byte lengths. -/
def assign_offsets (align : Nat) : Nat → List Nat → List Nat × Nat
  | cur, [] => ([], cur)
  | cur, len :: rest =>
    (align_to cur align :: (assign_offsets align (align_to cur align + len) rest).1,
     (assign_offsets align (align_to cur align + len) rest).2)

/-- Largest output_offset + piece length over the assigned pieces. -/
def max_end (offs lens : List Nat) : Nat :=
  (offs.zip lens).foldr (fun p acc => max (p.1 + p.2) acc) 0

/-- A StringPiece whose assigned position inside a merged section placed at
sh_addr is off, as read back by StringPiece::get_addr: the combined
merged_offset + output_offset is the assigned offset. -/
def piece_at (sh_addr off : Nat) : StringPiece :=
  { isec := { merged_section := { shdr := { sh_addr := sh_addr } }, merged_offset := 0 },
    output_offset := off }

/-! ## ShstrtabSection (src/mold.h lines 409-433) -/

/-- Embedding of ShstrtabSection: the accumulated contents (a std::string,
here a byte list) and the sh_size and sh_offset header fields. -/
structure ShstrtabSection where
  contents : List Nat
  sh_size : Nat
  sh_offset : Nat := 0
deriving DecidableEq

/-- The ShstrtabSection constructor: contents is a single NUL, sh_size = 1. -/
def ShstrtabSection.init : ShstrtabSection :=
  { contents := [0], sh_size := 1 }

/-- ShstrtabSection::add_string: return the current size as the name offset,
append the string bytes plus a NUL terminator, update sh_size. -/
def ShstrtabSection.add_string (st : ShstrtabSection) (s : List Nat) :
    ShstrtabSection × Nat :=
  ({ st with
      contents := st.contents ++ s ++ [0],
      sh_size := (st.contents ++ s ++ [0]).length },
   st.contents.length)

/-- ShstrtabSection::copy_to: memcpy(buf + shdr.sh_offset, contents.data,
contents.size()). -/
def ShstrtabSection.copy_to (st : ShstrtabSection) (buf : Nat → Nat) : Nat → Nat :=
  fun i =>
    if st.sh_offset ≤ i ∧ i < st.sh_offset + st.contents.length
    then st.contents.getD (i - st.sh_offset) 0
    else buf i

end Mold

/-! ## Helper lemmas for the ConcurrentMap embedding -/

theorem Mold.ConcurrentMap.mem_of_idx {V : Type} :
    ∀ (l : List (String × V)) (i : Nat) (a : String × V), l[i]? = some a → a ∈ l := by
  intro l
  induction l with
  | nil => intro i a h; simp at h
  | cons p rest ih =>
    intro i a h
    cases i with
    | zero => simp at h; simp [h]
    | succ j => simp at h; exact List.mem_cons_of_mem p (ih j a h)

theorem Mold.ConcurrentMap.findIdx_eq_none {V : Type} (m : Mold.ConcurrentMap V)
    (key : String) :
    Mold.ConcurrentMap.findIdx m key = none ↔ key ∉ m.map Prod.fst := by
  induction m with
  | nil => simp [Mold.ConcurrentMap.findIdx]
  | cons p rest ih =>
    by_cases hp : p.1 = key
    · simp [Mold.ConcurrentMap.findIdx, hp]
    · constructor
      · intro h hmem
        rw [List.map_cons, List.mem_cons] at hmem
        rcases hmem with h1 | h2
        · exact hp h1.symm
        · have hnone : Mold.ConcurrentMap.findIdx rest key = none := by
            revert h
            cases hfi : Mold.ConcurrentMap.findIdx rest key with
            | none => intro _; rfl
            | some j =>
              intro h
              exfalso
              simp [Mold.ConcurrentMap.findIdx, hp, hfi] at h
          exact ih.mp hnone h2
      · intro h
        have hrest : key ∉ List.map Prod.fst rest := fun hr =>
          h (by rw [List.map_cons]; exact List.mem_cons_of_mem _ hr)
        simp [Mold.ConcurrentMap.findIdx, hp, ih.mpr hrest]

theorem Mold.ConcurrentMap.findIdx_spec {V : Type} :
    ∀ (m : Mold.ConcurrentMap V) (key : String) (i : Nat),
      Mold.ConcurrentMap.findIdx m key = some i →
      i < m.length ∧ m[i]?.map Prod.fst = some key := by
  intro m
  induction m with
  | nil => intro key i h; simp [Mold.ConcurrentMap.findIdx] at h
  | cons p rest ih =>
    intro key i h
    by_cases hp : p.1 = key
    · simp [Mold.ConcurrentMap.findIdx, hp] at h
      subst h
      simp [hp]
    · simp [Mold.ConcurrentMap.findIdx, hp] at h
      obtain ⟨j, hj, hji⟩ := h
      obtain ⟨hlt, hkey⟩ := ih key j hj
      subst hji
      constructor
      · simpa using Nat.succ_lt_succ hlt
      · simpa using hkey

theorem Mold.ConcurrentMap.findIdx_append_sing {V : Type} :
    ∀ (m : Mold.ConcurrentMap V) (key : String) (val : V),
      Mold.ConcurrentMap.findIdx m key = none →
      Mold.ConcurrentMap.findIdx (m ++ [(key, val)]) key = some m.length := by
  intro m
  induction m with
  | nil => intro key val _; simp [Mold.ConcurrentMap.findIdx]
  | cons p rest ih =>
    intro key val h
    by_cases hp : p.1 = key
    · simp [Mold.ConcurrentMap.findIdx, hp] at h
    · have hstep : Mold.ConcurrentMap.findIdx ((p :: rest) ++ [(key, val)]) key =
          (Mold.ConcurrentMap.findIdx (rest ++ [(key, val)]) key).map (fun i => i + 1) := by
        simp [Mold.ConcurrentMap.findIdx, hp]
      have hrest : Mold.ConcurrentMap.findIdx rest key = none := by
        revert h
        cases hfi : Mold.ConcurrentMap.findIdx rest key with
        | none => intro _; rfl
        | some j =>
          intro h
          exfalso
          simp [Mold.ConcurrentMap.findIdx, hp, hfi] at h
      rw [hstep, ih key val hrest]
      rfl

/-! ## Claim theorems -/

/-- Claim C6: error(msg) prints exactly one line containing the message and
terminates with exit code 1 (it never returns: its embedding produces a
terminal ErrorEffect, not a value); the linker exits 0 only on success. -/
theorem Mold.c6_error_is_fatal (msg : String) :
    (Mold.error msg).out_lines = [msg] ∧
    (Mold.error msg).out_lines.length = 1 ∧
    (Mold.error msg).exit_code = 1 ∧
    (∀ r : Option String, Mold.linker_exit_code r = 0 ↔ r = none) := by
  refine ⟨rfl, rfl, rfl, ?_⟩
  intro r
  cases r <;> simp [Mold.linker_exit_code, Mold.error]

/-- Claim C7: PltSection::write_entry writes exactly the 6-byte sequence
0xff, 0x25 followed by the 4-byte little-endian displacement, and modifies no
byte outside [pos, pos+6). -/
theorem Mold.c7_plt_write_entry (buf : Nat → Nat) (pos value : Nat) :
    Mold.PltSection.write_entry buf pos value pos = 0xff ∧
    Mold.PltSection.write_entry buf pos value (pos + 1) = 0x25 ∧
    Mold.PltSection.write_entry buf pos value (pos + 2) = value % 256 ∧
    Mold.PltSection.write_entry buf pos value (pos + 3) = value / 2 ^ 8 % 256 ∧
    Mold.PltSection.write_entry buf pos value (pos + 4) = value / 2 ^ 16 % 256 ∧
    Mold.PltSection.write_entry buf pos value (pos + 5) = value / 2 ^ 24 % 256 ∧
    (∀ i, i < pos ∨ pos + 6 ≤ i → Mold.PltSection.write_entry buf pos value i = buf i) := by
  unfold Mold.PltSection.write_entry
  refine ⟨?_, ?_, ?_, ?_, ?_, ?_, ?_⟩
  · split_ifs <;> first | rfl | omega
  · split_ifs <;> first | rfl | omega
  · split_ifs <;> first | rfl | omega
  · split_ifs <;> first | rfl | omega
  · split_ifs <;> first | rfl | omega
  · split_ifs <;> first | rfl | omega
  · intro i hi
    split_ifs <;> first | rfl | omega

/-- Witness for C7 at a concrete buffer, position and value. -/
theorem Mold.c7_plt_write_entry_witness :
    Mold.PltSection.write_entry (fun _ => 7) 10 0x12345678 10 = 0xff ∧
    Mold.PltSection.write_entry (fun _ => 7) 10 0x12345678 12 = 0x78 ∧
    Mold.PltSection.write_entry (fun _ => 7) 10 0x12345678 15 = 0x12 ∧
    Mold.PltSection.write_entry (fun _ => 7) 10 0x12345678 16 = 7 := by
  obtain ⟨h0, h1, h2, h3, h4, h5, hframe⟩ :=
    Mold.c7_plt_write_entry (fun _ => 7) 10 0x12345678
  refine ⟨h0, ?_, ?_, hframe 16 (by decide)⟩
  · rw [show (12 : Nat) = 10 + 2 by decide] at *
    rw [h2]
  · rw [show (15 : Nat) = 10 + 5 by decide] at *
    rw [h5]
    decide

/-- Claim C9: the .interp chunk has sh_size 28, its copy_to writes exactly the
28 bytes of the interpreter path including the trailing NUL at sh_offset (and
nothing else), and it is emitted only when a dynamic segment exists — hence
never by the default static pipeline. -/
theorem Mold.c9_interp_section (sh_offset : Nat) (buf : Nat → Nat) :
    Mold.InterpSection.sh_size = 28 ∧
    Mold.interp_path_bytes.length = 28 ∧
    Mold.interp_path_bytes.getD 27 0 = 0 ∧
    (∀ j, j < 28 →
      Mold.InterpSection.copy_to sh_offset buf (sh_offset + j) =
        Mold.interp_path_bytes.getD j 0) ∧
    (∀ i, i < sh_offset ∨ sh_offset + 28 ≤ i →
      Mold.InterpSection.copy_to sh_offset buf i = buf i) ∧
    (∀ d, Mold.interp_emitted d = d) ∧
    Mold.interp_emitted false = false := by
  have hlen : Mold.interp_path_bytes.length = 28 := by decide
  refine ⟨by decide, hlen, by decide, ?_, ?_, fun d => rfl, rfl⟩
  · intro j hj
    unfold Mold.InterpSection.copy_to
    rw [if_pos (by omega)]
    congr 1
    omega
  · intro i hi
    unfold Mold.InterpSection.copy_to
    rw [if_neg (by omega)]

/-- Witness for C9 at a concrete offset and buffer: the first byte is the
slash, byte 27 is the NUL terminator, byte 28 is untouched. -/
theorem Mold.c9_interp_section_witness :
    Mold.InterpSection.copy_to 100 (fun _ => 9) (100 + 0) = 47 ∧
    Mold.InterpSection.copy_to 100 (fun _ => 9) (100 + 27) = 0 ∧
    Mold.InterpSection.copy_to 100 (fun _ => 9) 128 = 9 := by
  obtain ⟨_, _, _, hw, hframe, _, _⟩ := Mold.c9_interp_section 100 (fun _ => 9)
  refine ⟨?_, ?_, hframe 128 (by decide)⟩
  · rw [hw 0 (by decide)]
    decide
  · rw [hw 27 (by decide)]
    decide

/-- Claim C10: copy-constructing a Symbol preserves only the name and owning
file; every other field of the copy has its default value regardless of its
state in the original. -/
theorem Mold.c10_symbol_copy_resets (v : Mold.Symbol) :
    (Mold.Symbol.copy v).name = v.name ∧
    (Mold.Symbol.copy v).file = v.file ∧
    (Mold.Symbol.copy v).input_section = none ∧
    (Mold.Symbol.copy v).piece_ref = {} ∧
    (Mold.Symbol.copy v).value = 0 ∧
    (Mold.Symbol.copy v).got_offset = 0 ∧
    (Mold.Symbol.copy v).gotplt_offset = 0 ∧
    (Mold.Symbol.copy v).gottp_offset = 0 ∧
    (Mold.Symbol.copy v).plt_offset = 0 ∧
    (Mold.Symbol.copy v).relplt_offset = 0 ∧
    (Mold.Symbol.copy v).shndx = 0 ∧
    (Mold.Symbol.copy v).is_placeholder = false ∧
    (Mold.Symbol.copy v).is_dso = false ∧
    (Mold.Symbol.copy v).is_weak = false ∧
    (Mold.Symbol.copy v).is_undef_weak = false ∧
    (Mold.Symbol.copy v).traced = false ∧
    (Mold.Symbol.copy v).flags = 0 ∧
    (Mold.Symbol.copy v).visibility = 0 ∧
    (Mold.Symbol.copy v).type = Mold.STT_NOTYPE := by
  refine ⟨rfl, rfl, rfl, rfl, rfl, rfl, rfl, rfl, rfl, rfl, rfl, rfl, rfl, rfl,
    rfl, rfl, rfl, rfl, rfl⟩

/-- Claim C2: ConcurrentMap::insert(key, default_value) returns a stable
pointer: the first insert of a key installs the given value at the returned
entry, every later insert of an equal key returns the same pointer without
replacing the stored value, earlier entries are never moved, and keys stay
unique — so Symbol::intern yields exactly one Symbol per name and interning
the same string piece twice assigns only one offset. -/
theorem Mold.c2_concurrent_map_insert_stable {V : Type} (m : Mold.ConcurrentMap V)
    (key : String) (val : V) (hnd : (m.map Prod.fst).Nodup) :
    ((Mold.ConcurrentMap.insert m key val).1[(Mold.ConcurrentMap.insert m key val).2]?).map
        Prod.fst = some key ∧
    (key ∉ m.map Prod.fst →
      (Mold.ConcurrentMap.insert m key val).1 = m ++ [(key, val)] ∧
      (Mold.ConcurrentMap.insert m key val).2 = m.length ∧
      (Mold.ConcurrentMap.insert m key val).1[(Mold.ConcurrentMap.insert m key val).2]? =
        some (key, val)) ∧
    (∀ val2 : V,
      Mold.ConcurrentMap.insert (Mold.ConcurrentMap.insert m key val).1 key val2 =
        ((Mold.ConcurrentMap.insert m key val).1, (Mold.ConcurrentMap.insert m key val).2)) ∧
    (∀ i, i < m.length → (Mold.ConcurrentMap.insert m key val).1[i]? = m[i]?) ∧
    ((Mold.ConcurrentMap.insert m key val).1.map Prod.fst).Nodup := by
  cases hf : Mold.ConcurrentMap.findIdx m key with
  | some i =>
    have hins : Mold.ConcurrentMap.insert m key val = (m, i) := by
      unfold Mold.ConcurrentMap.insert
      rw [hf]
    obtain ⟨hlt, hkey⟩ := Mold.ConcurrentMap.findIdx_spec m key i hf
    rw [hins]
    refine ⟨hkey, ?_, ?_, fun j _ => rfl, hnd⟩
    · intro hnot
      exfalso
      obtain ⟨p, hp, hfst⟩ : ∃ p, m[i]? = some p ∧ p.1 = key := by
        cases hgi : m[i]? with
        | none => rw [hgi] at hkey; exact absurd hkey (by simp)
        | some p =>
          rw [hgi] at hkey
          exact ⟨p, rfl, by simpa using hkey⟩
      exact hnot (hfst ▸ List.mem_map_of_mem Prod.fst
        (Mold.ConcurrentMap.mem_of_idx m i p hp))
    · intro val2
      unfold Mold.ConcurrentMap.insert
      rw [hf]
  | none =>
    have hins : Mold.ConcurrentMap.insert m key val = (m ++ [(key, val)], m.length) := by
      unfold Mold.ConcurrentMap.insert
      rw [hf]
    have hnotin : key ∉ m.map Prod.fst := (Mold.ConcurrentMap.findIdx_eq_none m key).mp hf
    rw [hins]
    have hget : (m ++ [(key, val)])[m.length]? = some (key, val) :=
      List.getElem?_concat_length m (key, val)
    refine ⟨by rw [hget]; rfl, fun _ => ⟨rfl, rfl, hget⟩, ?_, ?_, ?_⟩
    · intro val2
      unfold Mold.ConcurrentMap.insert
      rw [Mold.ConcurrentMap.findIdx_append_sing m key val hf]
    · intro i hi
      exact List.getElem?_append_left hi
    · rw [List.map_append, List.nodup_append]
      refine ⟨hnd, List.nodup_singleton key, ?_⟩
      simpa [List.disjoint_singleton] using hnotin

/-- Witness for C2: inserting a fresh key into a one-entry map appends the
value at index 1, and re-inserting returns the same index unchanged. -/
theorem Mold.c2_concurrent_map_insert_stable_witness :
    (Mold.ConcurrentMap.insert ([("a", 5)] : Mold.ConcurrentMap Nat) "b" 7).1 =
      [("a", 5), ("b", 7)] ∧
    (Mold.ConcurrentMap.insert ([("a", 5)] : Mold.ConcurrentMap Nat) "b" 7).2 = 1 ∧
    Mold.ConcurrentMap.insert
        (Mold.ConcurrentMap.insert ([("a", 5)] : Mold.ConcurrentMap Nat) "b" 7).1 "b" 9 =
      ((Mold.ConcurrentMap.insert ([("a", 5)] : Mold.ConcurrentMap Nat) "b" 7).1,
       (Mold.ConcurrentMap.insert ([("a", 5)] : Mold.ConcurrentMap Nat) "b" 7).2) := by
  obtain ⟨-, h2, h3, -, -⟩ :=
    Mold.c2_concurrent_map_insert_stable ([("a", 5)] : Mold.ConcurrentMap Nat) "b" 7
      (by decide)
  obtain ⟨he, hi, -⟩ := h2 (by decide)
  exact ⟨he, hi, h3 9⟩

/-- Claim C3: Symbol::get_addr routes through piece, then section, then raw
value: with a non-null piece it returns the piece address plus the addend;
otherwise with a non-null input section it returns the output section's
sh_addr plus the section's offset plus the value; otherwise the raw value. -/
theorem Mold.c3_symbol_get_addr (s : Mold.Symbol) :
    (∀ p, s.piece_ref.piece = some p →
      Mold.Symbol.get_addr s = Mold.StringPiece.get_addr p + s.piece_ref.addend) ∧
    (∀ isec, s.piece_ref.piece = none → s.input_section = some isec →
      Mold.Symbol.get_addr s =
        isec.output_section.shdr.sh_addr + isec.offset + s.value) ∧
    (s.piece_ref.piece = none → s.input_section = none →
      Mold.Symbol.get_addr s = s.value) := by
  refine ⟨?_, ?_, ?_⟩
  · intro p hp
    simp [Mold.Symbol.get_addr, hp]
  · intro isec hp hi
    simp [Mold.Symbol.get_addr, hp, hi]
  · intro hp hi
    simp [Mold.Symbol.get_addr, hp, hi]

/-- Witness for C3: the three routing branches at concrete symbols. -/
theorem Mold.c3_symbol_get_addr_witness :
    Mold.Symbol.get_addr
      { name := "s",
        piece_ref :=
          { piece := some { isec := { merged_section := { shdr := { sh_addr := 100 } },
                                      merged_offset := 8 },
                            output_offset := 4 },
            addend := 2 } } = 114 ∧
    Mold.Symbol.get_addr
      { name := "t",
        input_section := some { output_section := { shdr := { sh_addr := 50 } },
                                offset := 6 },
        value := 3 } = 59 ∧
    Mold.Symbol.get_addr { name := "u", value := 42 } = 42 := by
  refine ⟨?_, ?_, ?_⟩
  · rw [(Mold.c3_symbol_get_addr _).1 _ rfl]
    rfl
  · rw [(Mold.c3_symbol_get_addr _).2.1 _ rfl rfl]
    rfl
  · rw [(Mold.c3_symbol_get_addr _).2.2 rfl rfl]

/-! ## Helper lemmas for the binding model -/

theorem Mold.BindKind.rank_le_three (k : Mold.BindKind) : k.rank ≤ 3 := by
  cases k <;> decide

theorem Mold.BindKind.rank_lt_three (k : Mold.BindKind)
    (h : k ≠ Mold.BindKind.strong) : k.rank < 3 := by
  cases k with
  | strong => exact absurd rfl h
  | placeholder => decide
  | undef => decide
  | weak => decide
  | common => decide

theorem Mold.maybe_override_keeps_strong (st inc : Mold.Binding)
    (h : st.kind = Mold.BindKind.strong) :
    Mold.maybe_override_symbol st inc = st := by
  have h1 : st.kind.rank = 3 := by rw [h]; rfl
  have h2 := Mold.BindKind.rank_le_three inc.kind
  unfold Mold.maybe_override_symbol
  rw [if_neg (by omega)]

theorem Mold.foldl_strong_absorb :
    ∀ (L : List Mold.Binding) (st : Mold.Binding), st.kind = Mold.BindKind.strong →
      L.foldl Mold.maybe_override_symbol st = st := by
  intro L
  induction L with
  | nil => intro st _; rfl
  | cons x L ih =>
    intro st hst
    rw [List.foldl_cons, Mold.maybe_override_keeps_strong st x hst]
    exact ih st hst

theorem Mold.foldl_first_strong (B : Mold.Binding) :
    ∀ (L : List Mold.Binding) (st A : Mold.Binding),
      st.kind.rank < 3 →
      L.Pairwise (fun a b => a.file < b.file) →
      A ∈ L → A.kind = Mold.BindKind.strong → A.file < B.file →
      (∀ C ∈ L, C.kind = Mold.BindKind.strong → C = A ∨ C = B) →
      L.foldl Mold.maybe_override_symbol st = A := by
  intro L
  induction L with
  | nil => intro st A _ _ hA; exact absurd hA (List.not_mem_nil A)
  | cons x L ih =>
    intro st A hst hpw hA hAs hAB honly
    rw [List.foldl_cons]
    by_cases hx : x.kind = Mold.BindKind.strong
    · rcases honly x (List.mem_cons_self x L) hx with hxa | hxb
      · subst hxa
        have hrepl : Mold.maybe_override_symbol st x = x := by
          have h1 : x.kind.rank = 3 := by rw [hx]; rfl
          unfold Mold.maybe_override_symbol
          rw [if_pos (by omega)]
        rw [hrepl]
        exact Mold.foldl_strong_absorb L x hx
      · exfalso
        subst hxb
        rcases List.mem_cons.mp hA with h1 | h1
        · rw [h1] at hAB
          exact Nat.lt_irrefl _ hAB
        · have hBA := (List.pairwise_cons.mp hpw).1 A h1
          omega
    · have hst2 : (Mold.maybe_override_symbol st x).kind.rank < 3 := by
        unfold Mold.maybe_override_symbol
        split
        · exact Mold.BindKind.rank_lt_three x.kind hx
        · exact hst
      have hAL : A ∈ L := by
        rcases List.mem_cons.mp hA with h1 | h1
        · exact absurd (h1 ▸ hAs) hx
        · exact h1
      exact ih (Mold.maybe_override_symbol st x) A hst2 (List.pairwise_cons.mp hpw).2
        hAL hAs hAB (fun C hC hCs => honly C (List.mem_cons_of_mem x hC) hCs)

/-- Claim C4: when files A and B both provide a strong definition of a name
and A has the lower priority, resolution leaves the symbol with A: an incoming
strong definition never replaces an installed strong definition, and since the
rule is applied in ascending priority order the lowest-priority strong
definer wins. -/
theorem Mold.c4_priority_monotonicity (L : List Mold.Binding) (A B : Mold.Binding)
    (hsorted : L.Pairwise (fun a b => a.file < b.file))
    (hA : A ∈ L) (hB : B ∈ L)
    (hAs : A.kind = Mold.BindKind.strong) (hBs : B.kind = Mold.BindKind.strong)
    (hAB : A.file < B.file)
    (honly : ∀ C ∈ L, C.kind = Mold.BindKind.strong → C = A ∨ C = B) :
    (Mold.resolve_symbol L).file = A.file ∧
    (Mold.resolve_symbol L).kind = Mold.BindKind.strong ∧
    (∀ st inc : Mold.Binding, st.kind = Mold.BindKind.strong →
      inc.kind = Mold.BindKind.strong → Mold.maybe_override_symbol st inc = st) := by
  have hres : Mold.resolve_symbol L = A := by
    unfold Mold.resolve_symbol
    exact Mold.foldl_first_strong B L _ A (by decide) hsorted hA hAs hAB honly
  rw [hres]
  exact ⟨rfl, hAs, fun st inc hst _ => Mold.maybe_override_keeps_strong st inc hst⟩

/-- Witness for C4: a weak file 0 and strong files 1 and 2; the resolved
symbol belongs to file 1. -/
theorem Mold.c4_priority_monotonicity_witness :
    (Mold.resolve_symbol
      [{ kind := Mold.BindKind.weak, file := 0 },
       { kind := Mold.BindKind.strong, file := 1 },
       { kind := Mold.BindKind.strong, file := 2 }]).file = 1 := by
  obtain ⟨h, -, -⟩ := Mold.c4_priority_monotonicity
    [{ kind := Mold.BindKind.weak, file := 0 },
     { kind := Mold.BindKind.strong, file := 1 },
     { kind := Mold.BindKind.strong, file := 2 }]
    { kind := Mold.BindKind.strong, file := 1 }
    { kind := Mold.BindKind.strong, file := 2 }
    (by decide) (by decide) (by decide) rfl rfl (by decide) (by decide)
  exact h

/-! ## Helper lemmas for the merge-offset model -/

theorem Mold.align_to_mod (val align : Nat) : Mold.align_to val align % align = 0 := by
  unfold Mold.align_to
  have h1 := Nat.mod_add_div (val + align - 1) align
  have h2 : val + align - 1 - (val + align - 1) % align =
      align * ((val + align - 1) / align) := by omega
  rw [h2]
  exact Nat.mul_mod_right align _

theorem Mold.le_align_to (val align : Nat) (h : 0 < align) :
    val ≤ Mold.align_to val align := by
  unfold Mold.align_to
  have h1 : (val + align - 1) % align < align := Nat.mod_lt _ h
  omega

theorem Mold.assign_offsets_size_le :
    ∀ (lens : List Nat) (align cur : Nat), 0 < align →
      cur ≤ (Mold.assign_offsets align cur lens).2 := by
  intro lens
  induction lens with
  | nil =>
    intro align cur _
    simp [Mold.assign_offsets]
  | cons l rest ih =>
    intro align cur h
    have h1 : cur ≤ Mold.align_to cur align := Mold.le_align_to cur align h
    have h2 := ih align (Mold.align_to cur align + l) h
    simp only [Mold.assign_offsets]
    omega

theorem Mold.assign_offsets_mem_bounds :
    ∀ (lens : List Nat) (align cur : Nat), 0 < align →
      ∀ pr ∈ (Mold.assign_offsets align cur lens).1.zip lens,
        cur ≤ pr.1 ∧ pr.1 % align = 0 ∧
        pr.1 + pr.2 ≤ (Mold.assign_offsets align cur lens).2 := by
  intro lens
  induction lens with
  | nil =>
    intro align cur _ pr hpr
    simp [Mold.assign_offsets] at hpr
  | cons l rest ih =>
    intro align cur h pr hpr
    simp only [Mold.assign_offsets, List.zip_cons_cons, List.mem_cons] at hpr ⊢
    rcases hpr with hpr | hpr
    · subst hpr
      refine ⟨Mold.le_align_to cur align h, Mold.align_to_mod cur align, ?_⟩
      have := Mold.assign_offsets_size_le rest align (Mold.align_to cur align + l) h
      omega
    · obtain ⟨h1, h2, h3⟩ := ih align (Mold.align_to cur align + l) h pr hpr
      have h4 := Mold.le_align_to cur align h
      exact ⟨by omega, h2, h3⟩

theorem Mold.assign_offsets_size_eq_max_end :
    ∀ (lens : List Nat) (align cur : Nat), 0 < align → lens ≠ [] →
      (Mold.assign_offsets align cur lens).2 =
        Mold.max_end (Mold.assign_offsets align cur lens).1 lens := by
  intro lens
  induction lens with
  | nil => intro _ _ _ hne; exact absurd rfl hne
  | cons l rest ih =>
    intro align cur h _
    cases rest with
    | nil =>
      simp [Mold.assign_offsets, Mold.max_end]
    | cons l2 rest2 =>
      have hsz := Mold.assign_offsets_size_le (l2 :: rest2) align
        (Mold.align_to cur align + l) h
      have hle : Mold.align_to cur align + l ≤
          (Mold.assign_offsets align (Mold.align_to cur align + l) (l2 :: rest2)).2 := hsz
      have hih := ih align (Mold.align_to cur align + l) h (by simp)
      unfold Mold.max_end at hih ⊢
      simp only [Mold.assign_offsets, List.zip_cons_cons, List.foldr_cons] at hih ⊢
      rw [← hih]
      exact (Nat.max_eq_right hle).symm

/-- Claim C5: after offset assignment, every piece address read back through
StringPiece::get_addr lies in [sh_addr, sh_addr + sh_size), is a multiple of
the section alignment when sh_addr is aligned (as layout guarantees), and the
assigned sh_size equals the largest output_offset + piece length. String
pieces are NUL-terminated, hence the nonzero-length hypothesis. -/
theorem Mold.c5_merged_section_layout (align sh_addr : Nat) (lens : List Nat)
    (halign : 0 < align) (haddr : sh_addr % align = 0)
    (hlens : ∀ l ∈ lens, 0 < l) :
    (∀ pr ∈ (Mold.assign_offsets align 0 lens).1.zip lens,
      sh_addr ≤ (Mold.piece_at sh_addr pr.1).get_addr ∧
      (Mold.piece_at sh_addr pr.1).get_addr <
        sh_addr + (Mold.assign_offsets align 0 lens).2 ∧
      (Mold.piece_at sh_addr pr.1).get_addr % align = 0) ∧
    (Mold.assign_offsets align 0 lens).2 =
      Mold.max_end (Mold.assign_offsets align 0 lens).1 lens := by
  constructor
  · intro pr hpr
    obtain ⟨h1, h2, h3⟩ := Mold.assign_offsets_mem_bounds lens align 0 halign pr hpr
    have hmem := List.of_mem_zip hpr
    have hpos : 0 < pr.2 := hlens pr.2 hmem.2
    have haddrs : (Mold.piece_at sh_addr pr.1).get_addr = sh_addr + pr.1 := by
      simp [Mold.piece_at, Mold.StringPiece.get_addr]
    rw [haddrs]
    have hmod : (sh_addr + pr.1) % align = 0 := by
      rw [Nat.add_mod, haddr, h2]
      simp
    exact ⟨Nat.le_add_right _ _, by omega, hmod⟩
  · cases lens with
    | nil => rfl
    | cons l rest =>
      exact Mold.assign_offsets_size_eq_max_end (l :: rest) align 0 halign (by simp)

/-- Witness for C5: alignment 4, section address 16, piece lengths 1, 3, 2:
the middle piece lands at offset 4 (address 20), sh_size is 10 and equals the
largest end. -/
theorem Mold.c5_merged_section_layout_witness :
    16 ≤ (Mold.piece_at 16 4).get_addr ∧
    (Mold.piece_at 16 4).get_addr < 16 + (Mold.assign_offsets 4 0 [1, 3, 2]).2 ∧
    (Mold.piece_at 16 4).get_addr % 4 = 0 ∧
    (Mold.assign_offsets 4 0 [1, 3, 2]).2 =
      Mold.max_end (Mold.assign_offsets 4 0 [1, 3, 2]).1 [1, 3, 2] := by
  obtain ⟨h1, h2⟩ := Mold.c5_merged_section_layout 4 16 [1, 3, 2]
    (by decide) (by decide) (by decide)
  obtain ⟨ha, hb, hc⟩ := h1 (4, 3) (by decide)
  exact ⟨ha, hb, hc, h2⟩

/-- Claim C8: ShstrtabSection starts as one NUL byte with sh_size 1;
add_string returns the offset at which the string plus a NUL is appended and
keeps sh_size equal to the content length; a later add_string leaves the
recorded name intact; copy_to places the exact contents at sh_offset and
touches nothing else, so each recorded offset points at its NUL-terminated
name. -/
theorem Mold.c8_shstrtab_section (st : Mold.ShstrtabSection) (s t : List Nat)
    (buf : Nat → Nat) :
    Mold.ShstrtabSection.init.contents = [0] ∧
    Mold.ShstrtabSection.init.sh_size = 1 ∧
    (Mold.ShstrtabSection.add_string st s).2 = st.contents.length ∧
    (Mold.ShstrtabSection.add_string st s).1.contents = st.contents ++ s ++ [0] ∧
    (Mold.ShstrtabSection.add_string st s).1.sh_size =
      (Mold.ShstrtabSection.add_string st s).1.contents.length ∧
    ((Mold.ShstrtabSection.add_string st s).1.contents.drop
        (Mold.ShstrtabSection.add_string st s).2).take (s.length + 1) = s ++ [0] ∧
    ((Mold.ShstrtabSection.add_string
          (Mold.ShstrtabSection.add_string st s).1 t).1.contents.drop
        (Mold.ShstrtabSection.add_string st s).2).take (s.length + 1) = s ++ [0] ∧
    (∀ i, i < st.contents.length →
      Mold.ShstrtabSection.copy_to st buf (st.sh_offset + i) = st.contents.getD i 0) ∧
    (∀ i, i < st.sh_offset ∨ st.sh_offset + st.contents.length ≤ i →
      Mold.ShstrtabSection.copy_to st buf i = buf i) := by
  have hdrop1 : (st.contents ++ s ++ [0]).drop st.contents.length = s ++ [0] := by
    rw [List.append_assoc, List.drop_left]
  have htake1 : (s ++ [0]).take (s.length + 1) = s ++ [0] := by
    rw [show s.length + 1 = (s ++ [0]).length by simp, List.take_length]
  refine ⟨rfl, rfl, rfl, rfl, rfl, ?_, ?_, ?_, ?_⟩
  · show ((st.contents ++ s ++ [0]).drop st.contents.length).take (s.length + 1) = s ++ [0]
    rw [hdrop1, htake1]
  · show (((st.contents ++ s ++ [0]) ++ t ++ [0]).drop st.contents.length).take
        (s.length + 1) = s ++ [0]
    rw [List.append_assoc, List.append_assoc, List.append_assoc, List.drop_left]
    rw [← List.append_assoc]
    rw [show s.length + 1 = (s ++ [0]).length by simp, List.take_left]
  · intro i hi
    unfold Mold.ShstrtabSection.copy_to
    rw [if_pos (by omega)]
    congr 1
    omega
  · intro i hi
    unfold Mold.ShstrtabSection.copy_to
    rw [if_neg (by omega)]

/-- Witness for C8: adding ".text" (bytes 46,116,101,120,116) to the initial
table returns offset 1 and the table reads back as expected. -/
theorem Mold.c8_shstrtab_section_witness :
    (Mold.ShstrtabSection.add_string Mold.ShstrtabSection.init
        [46, 116, 101, 120, 116]).2 = 1 ∧
    (Mold.ShstrtabSection.add_string Mold.ShstrtabSection.init
        [46, 116, 101, 120, 116]).1.contents =
      [0, 46, 116, 101, 120, 116, 0] ∧
    Mold.ShstrtabSection.copy_to Mold.ShstrtabSection.init (fun _ => 5)
      (Mold.ShstrtabSection.init.sh_offset + 0) = 0 ∧
    Mold.ShstrtabSection.copy_to Mold.ShstrtabSection.init (fun _ => 5) 3 = 5 := by
  obtain ⟨-, -, h3, h4, -, -, -, h8, h9⟩ :=
    Mold.c8_shstrtab_section Mold.ShstrtabSection.init [46, 116, 101, 120, 116]
      [] (fun _ => 5)
  refine ⟨h3, by rw [h4]; rfl, ?_, h9 3 (by decide)⟩
  · rw [h8 0 (by decide)]
    rfl
